import Mathlib

/-!
Verification development for the shebang-line batch rewriter `pathfix.py`.

Byte strings (Python `bytes`) are modelled as lists of naturals, the
filesystem as a finite tree of named nodes, and every fallible OS call is
driven by an explicit oracle recording which calls fail.  The definitions
in the first half are direct transliterations of the Python source; the
`…Spec` definitions restate parts of the natural-language specification
and are compared with the transliterations in the theorems.
-/

namespace Pathfix

/-- Byte strings (Python `bytes`) as lists of naturals. -/
abbrev Bytes := List Nat

/-- `leadsWith pat l` is true when `pat` is an initial segment of `l`
(Python `bytes.startswith`). -/
def leadsWith : Bytes → Bytes → Bool
  | [], _ => true
  | _ :: _, [] => false
  | p :: ps, b :: bs => p == b && leadsWith ps bs

/-- `hasSub pat l` is true when `pat` occurs contiguously inside `l`
(Python `pat in l` on bytes). -/
def hasSub (pat : Bytes) : Bytes → Bool
  | [] => pat == []
  | b :: bs => leadsWith pat (b :: bs) || hasSub pat bs

/-- The bytes of `"#!"`. -/
def bShebang : Bytes := [35, 33]

/-- The bytes of `"python"`. -/
def bPython : Bytes := [112, 121, 116, 104, 111, 110]

/-- Encode a string as bytes (`str.encode` for the ASCII inputs we model). -/
def strToBytes (s : String) : Bytes := s.data.map Char.toNat

/-- The process-wide configuration set by `main` from the command line:
`NEW_INTERPRETER`, `PRESERVE_TIMESTAMPS`, `CREATE_BACKUP`, `KEEP_FLAGS`,
`ADD_FLAGS`. -/
structure Config where
  newInterpreter : Option Bytes
  preserveTimestamps : Bool
  createBackup : Bool
  keepFlags : Bool
  addFlags : Bytes
deriving DecidableEq

/-- The configuration before any option is processed. -/
def defaultConfig : Config := ⟨none, false, true, false, []⟩

/-- `bytes.rstrip(b'\n')`: drop all trailing newline bytes. -/
def rstripNL (l : Bytes) : Bytes := (l.reverse.dropWhile (fun b => b = 10)).reverse

/-- The suffix of `l` starting at the first occurrence of `b' -'`
(`shebangline.find(b' -')` followed by slicing), or `[]` when there is none. -/
def findSuffix : Bytes → Bytes
  | [] => []
  | a :: rest => if leadsWith [32, 45] (a :: rest) then a :: rest else findSuffix rest

/-- `parse_shebang`: strip trailing newlines, then return everything from the
first `b' -'` on (empty when there is no flag fragment). -/
def parse_shebang (shebangline : Bytes) : Bytes := findSuffix (rstripNL shebangline)

/-- `populate_flags`: compose the flag suffix for the new shebang line from
the kept old flags (when `-k` is active) and the added flags (`-a`). -/
def populate_flags (cfg : Config) (shebangline : Bytes) : Bytes :=
  let old0 : Bytes := if cfg.keepFlags then parse_shebang shebangline else []
  let old : Bytes := if old0 = [] then old0 else old0.drop 2
  if old = [] ∧ cfg.addFlags = [] then [] else [32, 45] ++ cfg.addFlags ++ old

/-- `fixline`: rewrite one first line.  Lines that do not start with `#!`,
do not contain `python`, or are processed with no interpreter configured are
returned unchanged; otherwise the line becomes
`b'#! ' + NEW_INTERPRETER + flags + b'\n'`. -/
def fixline (cfg : Config) (line : Bytes) : Bytes :=
  if leadsWith bShebang line = false then line
  else if hasSub bPython line = false then line
  else
    match cfg.newInterpreter with
    | none => line
    | some i => [35, 33, 32] ++ i ++ populate_flags cfg line ++ [10]

/-- Index of the first occurrence of `b' -'` in `l`, stated the way the
specification words it (search for the first position where a space followed
by a hyphen begins). -/
def firstSpDash : Bytes → Option Nat
  | [] => none
  | a :: rest =>
    if leadsWith [32, 45] (a :: rest) then some 0 else (firstSpDash rest).map (· + 1)

/-- The old-flags fragment as the specification describes it: from the first
occurrence of `' -'` in the line (trailing newlines stripped) to the end,
with the leading `' -'` removed; empty unless `-k` is active. -/
def oldFlagsSpec (cfg : Config) (line : Bytes) : Bytes :=
  if cfg.keepFlags then
    match firstSpDash (rstripNL line) with
    | none => []
    | some j => ((rstripNL line).drop j).drop 2
  else []

/-- The flags suffix as the specification describes it:
`' -' + added flags + old flags` whenever either part is non-empty,
empty otherwise. -/
def suffixSpec (cfg : Config) (line : Bytes) : Bytes :=
  let old := oldFlagsSpec cfg line
  if cfg.addFlags = [] ∧ old = [] then [] else [32, 45] ++ cfg.addFlags ++ old

/- ### Lemmas about the byte-level search functions -/

theorem leadsWith_spdash_shape {l : Bytes} (h : leadsWith [32, 45] l = true) :
    ∃ t, l = 32 :: 45 :: t := by
  match l with
  | [] => simp [leadsWith] at h
  | [a] => simp [leadsWith] at h
  | a :: b :: t =>
    simp [leadsWith] at h
    exact ⟨t, by simp [h.1, h.2]⟩

theorem findSuffix_shape (l : Bytes) :
    findSuffix l = [] ∨ ∃ t, findSuffix l = 32 :: 45 :: t := by
  induction l with
  | nil => exact Or.inl rfl
  | cons a rest ih =>
    by_cases h : leadsWith [32, 45] (a :: rest) = true
    · obtain ⟨t, ht⟩ := leadsWith_spdash_shape h
      exact Or.inr ⟨t, by rw [findSuffix, if_pos h, ht]⟩
    · rw [findSuffix, if_neg h]
      exact ih

theorem firstSpDash_findSuffix (l : Bytes) :
    findSuffix l = match firstSpDash l with
      | none => []
      | some j => l.drop j := by
  induction l with
  | nil => rfl
  | cons a rest ih =>
    by_cases h : leadsWith [32, 45] (a :: rest) = true
    · simp [findSuffix, firstSpDash, h]
    · rw [findSuffix, if_neg h, firstSpDash, if_neg h, ih]
      cases hf : firstSpDash rest with
      | none => simp
      | some j => simp

theorem firstSpDash_leadsWith {l : Bytes} {j : Nat} (h : firstSpDash l = some j) :
    leadsWith [32, 45] (l.drop j) = true := by
  induction l generalizing j with
  | nil => simp [firstSpDash] at h
  | cons a rest ih =>
    by_cases hl : leadsWith [32, 45] (a :: rest) = true
    · rw [firstSpDash, if_pos hl] at h
      cases h
      simpa using hl
    · rw [firstSpDash, if_neg hl] at h
      cases hf : firstSpDash rest with
      | none => rw [hf] at h; simp at h
      | some k =>
        rw [hf] at h
        simp at h
        subst h
        simpa using ih hf

theorem findSuffix_all {l : Bytes} (h : hasSub [32, 45] l = false) :
    findSuffix l = [] := by
  induction l with
  | nil => rfl
  | cons a rest ih =>
    rw [hasSub, Bool.or_eq_false_iff] at h
    rw [findSuffix, if_neg (by simp [h.1]), ih h.2]

theorem findSuffix_append_found {l : Bytes} (o : Bytes) (h : hasSub [32, 45] l = false) :
    findSuffix (l ++ 32 :: 45 :: o) = 32 :: 45 :: o := by
  induction l with
  | nil => simp [findSuffix, leadsWith]
  | cons a rest ih =>
    rw [hasSub, Bool.or_eq_false_iff] at h
    have hcond : leadsWith [32, 45] (a :: (rest ++ 32 :: 45 :: o)) = false := by
      cases rest with
      | nil => simp [leadsWith]
      | cons b r =>
        have h1 := h.1
        simp [leadsWith] at h1 ⊢
        exact h1
    have hstep : findSuffix (a :: (rest ++ 32 :: 45 :: o)) = findSuffix (rest ++ 32 :: 45 :: o) := by
      simp only [findSuffix, hcond]
      simp
    rw [List.cons_append, hstep, ih h.2]

theorem leadsWith_single {x : Nat} {l : Bytes} (h : leadsWith [x] l = true) :
    ∃ t, l = x :: t := by
  cases l with
  | nil => simp [leadsWith] at h
  | cons b bs =>
    simp [leadsWith] at h
    exact ⟨bs, by rw [h]⟩

theorem mem_of_getLast? {α : Type _} : ∀ {l : List α} {a : α}, l.getLast? = some a → a ∈ l
  | [], _, h => by simp at h
  | [b], _, h => by simp_all
  | b :: c :: r, a, h => by
    rw [List.getLast?_cons_cons] at h
    exact List.mem_cons_of_mem _ (mem_of_getLast? h)

theorem head?_dropWhile_not {α : Type _} (p : α → Bool) :
    ∀ (m : List α) {a : α}, (m.dropWhile p).head? = some a → p a = false
  | [], a, h => by simp at h
  | x :: r, a, h => by
    rw [List.dropWhile_cons] at h
    by_cases hp : p x = true
    · rw [if_pos hp] at h
      exact head?_dropWhile_not p r h
    · rw [if_neg hp] at h
      simp at h
      rw [← h]
      simpa using hp

theorem rstripNL_getLast_ne (l : Bytes) : (rstripNL l).getLast? ≠ some 10 := by
  rw [rstripNL, List.getLast?_reverse]
  intro h
  have := head?_dropWhile_not _ _ h
  simp at this

theorem rstripNL_append_nl (l : Bytes) : rstripNL (l ++ [10]) = rstripNL l := by
  simp [rstripNL, List.reverse_append, List.dropWhile_cons]

theorem rstripNL_eq_self {l : Bytes} (h : l.getLast? ≠ some 10) : rstripNL l = l := by
  rw [rstripNL]
  cases hr : l.reverse with
  | nil =>
    have : l = [] := by simpa using congrArg List.reverse hr
    simp [this]
  | cons a r =>
    have ha : a ≠ 10 := by
      have hh : l.reverse.head? = some a := by rw [hr]; rfl
      rw [List.head?_reverse] at hh
      intro he
      rw [he] at hh
      exact h hh
    rw [List.dropWhile_cons, if_neg (by simp [ha]), ← hr, List.reverse_reverse]

theorem findSuffix_suffix (l : Bytes) : ∃ t, t ++ findSuffix l = l := by
  induction l with
  | nil => exact ⟨[], rfl⟩
  | cons a rest ih =>
    by_cases h : leadsWith [32, 45] (a :: rest) = true
    · exact ⟨[], by rw [findSuffix, if_pos h]; rfl⟩
    · obtain ⟨t, ht⟩ := ih
      refine ⟨a :: t, ?_⟩
      rw [findSuffix, if_neg h, List.cons_append, ht]

theorem populate_flags_eq_suffixSpec (cfg : Config) (line : Bytes) :
    populate_flags cfg line = suffixSpec cfg line := by
  unfold populate_flags suffixSpec oldFlagsSpec
  cases hk : cfg.keepFlags with
  | false => simp [and_comm]
  | true =>
    rw [parse_shebang, firstSpDash_findSuffix (rstripNL line)]
    cases hf : firstSpDash (rstripNL line) with
    | none => simp [and_comm]
    | some j =>
      have hlw := firstSpDash_leadsWith hf
      obtain ⟨t, ht⟩ := leadsWith_spdash_shape hlw
      simp [ht, and_comm]

theorem fixline_eq_self_of_guard {cfg : Config} {L : Bytes}
    (h : leadsWith bShebang L = false ∨ hasSub bPython L = false ∨
      cfg.newInterpreter = none) :
    fixline cfg L = L := by
  rcases h with h | h | h
  · simp [fixline, h]
  · simp [fixline, h]
  · simp [fixline, h]

theorem hasSub_header {i : Bytes} (h45 : leadsWith [45] i = false)
    (hs : hasSub [32, 45] i = false) :
    hasSub [32, 45] (35 :: 33 :: 32 :: i) = false := by
  simp [hasSub, leadsWith, h45, hs]

theorem parse_shebang_header_nil {i : Bytes} (h47 : leadsWith [47] i = true)
    (h10 : 10 ∉ i) (hsd : hasSub [32, 45] i = false) :
    parse_shebang ([35, 33, 32] ++ i ++ [10]) = [] := by
  obtain ⟨t, hti⟩ := leadsWith_single h47
  have hin : i ≠ [] := by rw [hti]; simp
  have hilast : i.getLast? ≠ some 10 := fun hl => h10 (mem_of_getLast? hl)
  have hA : [35, 33, 32] ++ i ++ [10] = ([35, 33, 32] ++ i) ++ [10] := by simp
  have h45 : leadsWith [45] i = false := by rw [hti]; simp [leadsWith]
  rw [parse_shebang, hA, rstripNL_append_nl,
    rstripNL_eq_self (by rw [List.getLast?_append_of_ne_nil _ hin]; exact hilast)]
  exact findSuffix_all (hasSub_header h45 hsd)

theorem parse_shebang_header_flags {i o : Bytes} (h47 : leadsWith [47] i = true)
    (hsd : hasSub [32, 45] i = false)
    (ho : o ≠ []) (holast : o.getLast? ≠ some 10) :
    parse_shebang ([35, 33, 32] ++ i ++ (32 :: 45 :: o) ++ [10]) = 32 :: 45 :: o := by
  have h45 : leadsWith [45] i = false := by
    obtain ⟨t, hti⟩ := leadsWith_single h47
    rw [hti]; simp [leadsWith]
  have hA : [35, 33, 32] ++ i ++ (32 :: 45 :: o) ++ [10]
      = (([35, 33, 32] ++ i) ++ (32 :: 45 :: o)) ++ [10] := by simp
  have hglast : (([35, 33, 32] ++ i) ++ (32 :: 45 :: o)).getLast? ≠ some 10 := by
    rw [List.getLast?_append_of_ne_nil _ (by simp)]
    have : (32 : Nat) :: 45 :: o = [32, 45] ++ o := rfl
    rw [this, List.getLast?_append_of_ne_nil _ ho]
    exact holast
  rw [parse_shebang, hA, rstripNL_append_nl, rstripNL_eq_self hglast]
  exact findSuffix_append_found o (hasSub_header h45 hsd)

/- ### The C1 and C2 theorems about `fixline` -/

/-- C1: for every first line starting with `#!` and containing `python`,
with an interpreter configured, `fixline` emits exactly
`b'#! ' + interpreter + suffix + b'\n'` (single space after `#!`), where the
suffix is `' -' + added flags + old flags` whenever either part is non-empty
and empty otherwise, the old flags being taken (only under `-k`) from the
first occurrence of `' -'` in the newline-stripped line with the leading
`' -'` removed. -/
theorem fixline_flag_composition (cfg : Config) (L i : Bytes)
    (hi : cfg.newInterpreter = some i)
    (h1 : leadsWith bShebang L = true)
    (h2 : hasSub bPython L = true) :
    fixline cfg L = [35, 33, 32] ++ i ++ suffixSpec cfg L ++ [10] := by
  simp only [fixline, h1, h2, hi]
  simp [populate_flags_eq_suffixSpec]

/-- Witness for C1 at the specification's own example: rewriting
`#! /usr/bin/env python -W Error -s` with interpreter `/opt/bin/python3`,
`-k` set and `-a sv` yields `#! /opt/bin/python3 -svW Error -s\n`. -/
theorem fixline_flag_composition_witness :
    fixline ⟨some (strToBytes "/opt/bin/python3"), false, true, true, strToBytes "sv"⟩
        (strToBytes "#! /usr/bin/env python -W Error -s")
      = strToBytes "#! /opt/bin/python3 -svW Error -s\n" :=
  (fixline_flag_composition
      ⟨some (strToBytes "/opt/bin/python3"), false, true, true, strToBytes "sv"⟩
      (strToBytes "#! /usr/bin/env python -W Error -s")
      (strToBytes "/opt/bin/python3") rfl (by decide) (by decide)).trans (by decide)

/-- C2 is false as stated: with `-k` and `-a sv` both set and interpreter
`/opt/bin/python3`, rewriting `#!/usr/bin/python\n` twice appends the added
flags again, so `fixline` is not idempotent. -/
theorem fixline_idempotent_counterexample :
    fixline ⟨some (strToBytes "/opt/bin/python3"), false, true, true, strToBytes "sv"⟩
        (fixline ⟨some (strToBytes "/opt/bin/python3"), false, true, true, strToBytes "sv"⟩
          (strToBytes "#!/usr/bin/python\n"))
      ≠ fixline ⟨some (strToBytes "/opt/bin/python3"), false, true, true, strToBytes "sv"⟩
          (strToBytes "#!/usr/bin/python\n") := by
  decide

/-- C2 (amended): the single-line rewrite is idempotent for every
configuration in which `-k` and `-a` are not both active, provided the
configured interpreter path is absolute and contains neither `' -'` nor a
newline byte. -/
theorem fixline_idempotent_amended (cfg : Config) (L : Bytes)
    (hka : cfg.keepFlags = false ∨ cfg.addFlags = [])
    (hi : ∀ i, cfg.newInterpreter = some i →
      leadsWith [47] i = true ∧ 10 ∉ i ∧ hasSub [32, 45] i = false) :
    fixline cfg (fixline cfg L) = fixline cfg L := by
  cases hni : cfg.newInterpreter with
  | none =>
    have hL := @fixline_eq_self_of_guard cfg L (Or.inr (Or.inr hni))
    rw [hL]
    exact hL
  | some i =>
  obtain ⟨h47, h10, hsd⟩ := hi i hni
  by_cases h1 : leadsWith bShebang L = false
  · have hL := @fixline_eq_self_of_guard cfg L (Or.inl h1)
    rw [hL]
    exact hL
  by_cases h2 : hasSub bPython L = false
  · have hL := @fixline_eq_self_of_guard cfg L (Or.inr (Or.inl h2))
    rw [hL]
    exact hL
  simp only [Bool.not_eq_false] at h1 h2
  have hfl : fixline cfg L = [35, 33, 32] ++ i ++ populate_flags cfg L ++ [10] := by
    simp only [fixline, h1, h2, hni]
    simp
  rw [hfl]
  by_cases hg2 : hasSub bPython ([35, 33, 32] ++ i ++ populate_flags cfg L ++ [10]) = false
  · exact fixline_eq_self_of_guard (Or.inr (Or.inl hg2))
  simp only [Bool.not_eq_false] at hg2
  have hg1 : leadsWith bShebang ([35, 33, 32] ++ i ++ populate_flags cfg L ++ [10]) = true := by
    simp [bShebang, leadsWith]
  have hfr : fixline cfg ([35, 33, 32] ++ i ++ populate_flags cfg L ++ [10])
      = [35, 33, 32] ++ i ++ populate_flags cfg ([35, 33, 32] ++ i ++ populate_flags cfg L ++ [10]) ++ [10] := by
    simp only [fixline, hg1, hg2, hni]
    simp
  rw [hfr]
  suffices hps : populate_flags cfg ([35, 33, 32] ++ i ++ populate_flags cfg L ++ [10])
      = populate_flags cfg L by rw [hps]
  cases hk : cfg.keepFlags with
  | false =>
    have hconst : ∀ X, populate_flags cfg X
        = if cfg.addFlags = [] then [] else [32, 45] ++ cfg.addFlags := by
      intro X
      simp [populate_flags, hk]
    rw [hconst, hconst]
  | true =>
    have hadd : cfg.addFlags = [] := hka.resolve_left (by simp [hk])
    have hFval : populate_flags cfg L = []
        ∨ ∃ o, o ≠ [] ∧ o.getLast? ≠ some 10 ∧ populate_flags cfg L = 32 :: 45 :: o := by
      rcases findSuffix_shape (rstripNL L) with hp | ⟨t, hp⟩
      · left
        simp [populate_flags, hk, hadd, parse_shebang, hp]
      · cases ht : t with
        | nil =>
          left
          rw [ht] at hp
          simp [populate_flags, hk, hadd, parse_shebang, hp]
        | cons x xs =>
          right
          refine ⟨t, by rw [ht]; simp, ?_, ?_⟩
          · obtain ⟨u, hu⟩ := findSuffix_suffix (rstripNL L)
            rw [hp] at hu
            have hlast := rstripNL_getLast_ne L
            rw [← hu, List.getLast?_append_of_ne_nil _ (by simp)] at hlast
            have h2545 : (32 : Nat) :: 45 :: t = [32, 45] ++ t := rfl
            rw [h2545, List.getLast?_append_of_ne_nil _ (by rw [ht]; simp)] at hlast
            exact hlast
          · simp [populate_flags, hk, hadd, parse_shebang, hp, ht]
    rcases hFval with hF | ⟨o, ho, holast, hF⟩
    · rw [hF]
      have hps := parse_shebang_header_nil h47 h10 hsd
      have harg : [35, 33, 32] ++ i ++ ([] : Bytes) ++ [10] = [35, 33, 32] ++ i ++ [10] := by
        simp
      rw [harg]
      simp only [populate_flags, hk, hadd]
      rw [hps]
      simp
    · rw [hF]
      have hps := parse_shebang_header_flags h47 hsd ho holast
      simp only [populate_flags, hk, hadd]
      rw [hps]
      simp [ho]

/-- Witness for the amended C2: with `-a sv` alone (no `-k`) and interpreter
`/opt/bin/python3`, the rewrite of `#!/usr/bin/python\n` is idempotent. -/
theorem fixline_idempotent_amended_witness :
    fixline ⟨some (strToBytes "/opt/bin/python3"), false, true, false, strToBytes "sv"⟩
        (fixline ⟨some (strToBytes "/opt/bin/python3"), false, true, false, strToBytes "sv"⟩
          (strToBytes "#!/usr/bin/python\n"))
      = fixline ⟨some (strToBytes "/opt/bin/python3"), false, true, false, strToBytes "sv"⟩
          (strToBytes "#!/usr/bin/python\n") :=
  fixline_idempotent_amended _ _ (Or.inl rfl) (fun i hi => by
    cases hi
    exact ⟨by decide, by decide, by decide⟩)

/- ### The filesystem model -/

/-- A filesystem node: a regular file (content bytes, permission bits,
modification and access time), a directory with named entries, or a
symbolic link whose target is stored in place. -/
inductive Node where
  | file (content : Bytes) (mode : Nat) (mtime : Nat) (atime : Nat)
  | dir (entries : List (String × Node))
  | link (target : Node)

/-- Directory entries: an association list from names to nodes. -/
abbrev Entries := List (String × Node)

/-- A path, as the list of its components. -/
abbrev Path := List String

/-- First entry with the given name. -/
def lookupEntry : Entries → String → Option Node
  | [], _ => none
  | (k, v) :: r, s => if k = s then some v else lookupEntry r s

/-- Replace the entry with the given name in place, or append it. -/
def setEntry : Entries → String → Node → Entries
  | [], s, n => [(s, n)]
  | (k, v) :: r, s, n => if k = s then (s, n) :: r else (k, v) :: setEntry r s n

/-- Remove the entry with the given name. -/
def removeEntry : Entries → String → Entries
  | [], _ => []
  | (k, v) :: r, s => if k = s then r else (k, v) :: removeEntry r s

/-- Follow a chain of symbolic links to its target. -/
def derefAll : Node → Node
  | .link t => derefAll t
  | n => n

/-- `os.rename src dst` inside one directory: move the entry, replacing any
entry already named `dst`. -/
def renameEntry (es : Entries) (src dst : String) : Entries :=
  match lookupEntry es src with
  | none => es
  | some n => setEntry (removeEntry es src) dst n

/-- `os.stat` of a name (follows links): permission bits, mtime, atime. -/
def statEntry (es : Entries) (s : String) : Option (Nat × Nat × Nat) :=
  match lookupEntry es s with
  | none => none
  | some n =>
    match derefAll n with
    | .file _ m mt at' => some (m, mt, at')
    | _ => none

/-- `open(name, 'rb')` followed by reading everything (follows links);
`none` when the name is absent or not a regular file. -/
def openRead (es : Entries) (s : String) : Option Bytes :=
  match lookupEntry es s with
  | none => none
  | some n =>
    match derefAll n with
    | .file c _ _ _ => some c
    | _ => none

/-- `os.chmod`: replace the permission bits of a file entry. -/
def setEntryMode (es : Entries) (s : String) (m : Nat) : Entries :=
  match lookupEntry es s with
  | some (.file c _ mt at') => setEntry es s (.file c m mt at')
  | _ => es

/-- `os.utime`: replace the access and modification time of a file entry. -/
def setEntryTimes (es : Entries) (s : String) (at' mt : Nat) : Entries :=
  match lookupEntry es s with
  | some (.file c m _ _) => setEntry es s (.file c m mt at')
  | _ => es

/-- Which fallible OS calls fail during one `fix`, plus the attributes of a
freshly created file. -/
structure Oracle where
  openFails : Bool
  tempFails : Bool
  statFails : Bool
  chmodFails : Bool
  backupFails : Bool
  removeFails : Bool
  renameFails : Bool
  utimeFails : Bool
  newFileMode : Nat
  newFileMtime : Nat
  newFileAtime : Nat
deriving DecidableEq

/-- The oracle on which every OS call succeeds. -/
def okOracle : Oracle := ⟨false, false, false, false, false, false, false, false, 420, 7, 7⟩

/-- Observable output: one constructor per distinct `rep`/`err` message the
program can print (progress lines go to stdout, the rest to stderr). -/
inductive Ev where
  | recurseDbg (p : Path)
  | errListDir (p : Path)
  | errSymlink (p : Path)
  | noChange (p : Path)
  | updating (p : Path)
  | errOpen (p : Path)
  | errCreate (p : Path)
  | warnChmod (p : Path)
  | warnBackup (p : Path)
  | warnRemove (p : Path)
  | errRename (p : Path)
  | errUtime (p : Path)
  | usageErr
deriving DecidableEq

/-- `f.readline()` on the whole content: everything up to and including the
first newline, or everything when there is none. -/
def readFirstLine : Bytes → Bytes
  | [] => []
  | 10 :: _ => [10]
  | b :: r => b :: readFirstLine r

/-- The label used in messages about the temporary file `@name`. -/
def tempPath (p : Path) : Path :=
  match p.getLast? with
  | some s => p.dropLast ++ ["@" ++ s]
  | none => p

/-- `fix(filename)`, acting inside the directory that holds the file:
read the first line, rewrite it with `fixline`; on a change, write
`@name`, copy the file's mode onto it, move the original to `name~` (or
delete it when backups are off), rename the temporary over the original
and optionally restore the original timestamps.  Returns the failure flag,
the updated directory and the printed messages, labelled with the full
path `p` of the file. -/
def fixInDir (cfg : Config) (orc : Oracle) (p : Path) (es : Entries) (name : String) :
    Bool × Entries × List Ev :=
  match openRead es name, orc.openFails with
  | some content, false =>
    let line := readFirstLine content
    let fixed := fixline cfg line
    if fixed = line then
      (false, es, [.noChange p])
    else if orc.tempFails then
      (true, es, [.errCreate (tempPath p)])
    else
      let tn := "@" ++ name
      let newContent := fixed ++ content.drop line.length
      let es1 := setEntry es tn (.file newContent orc.newFileMode orc.newFileMtime orc.newFileAtime)
      let stat0 : Option (Nat × Nat × Nat) := if orc.statFails then none else statEntry es1 name
      let chmodStep : Entries × Option (Nat × Nat) × List Ev :=
        match stat0 with
        | none => (es1, none, [.warnChmod (tempPath p)])
        | some (m, mt, at') =>
          if orc.chmodFails then (es1, some (at', mt), [.warnChmod (tempPath p)])
          else (setEntryMode es1 tn (m % 4096), some (at', mt), [])
      let backupStep : Entries × List Ev :=
        if cfg.createBackup then
          if orc.backupFails then (chmodStep.1, [.warnBackup p])
          else (renameEntry chmodStep.1 name (name ++ "~"), [])
        else
          if orc.removeFails then (chmodStep.1, [.warnRemove p])
          else (removeEntry chmodStep.1 name, [])
      if orc.renameFails then
        (true, backupStep.1, [.updating p] ++ chmodStep.2.2 ++ backupStep.2 ++ [.errRename p])
      else
        let es4 := renameEntry backupStep.1 tn name
        if cfg.preserveTimestamps then
          match chmodStep.2.1 with
          | some (at', mt) =>
            if at' ≠ 0 ∧ mt ≠ 0 then
              if orc.utimeFails then
                (true, es4, [.updating p] ++ chmodStep.2.2 ++ backupStep.2 ++ [.errUtime p])
              else
                (false, setEntryTimes es4 name at' mt,
                  [.updating p] ++ chmodStep.2.2 ++ backupStep.2)
            else (false, es4, [.updating p] ++ chmodStep.2.2 ++ backupStep.2)
          | none => (false, es4, [.updating p] ++ chmodStep.2.2 ++ backupStep.2)
        else (false, es4, [.updating p] ++ chmodStep.2.2 ++ backupStep.2)
  | _, _ => (true, es, [.errOpen p])

/- ### Traversal -/

/-- A word character of the pattern `[a-zA-Z0-9_]`. -/
def isWordChar (c : Char) : Bool :=
  (('a' ≤ c) && (c ≤ 'z')) || (('A' ≤ c) && (c ≤ 'Z')) || (('0' ≤ c) && (c ≤ '9')) || (c == '_')

/-- `ispython`: whether `re.match(r'^[a-zA-Z0-9_]+\.py$', name)` succeeds,
with Python semantics for `$` (end of string, or just before one final
newline). -/
def ispython (name : String) : Bool :=
  let stem := name.data.takeWhile isWordChar
  let rest := name.data.dropWhile isWordChar
  !stem.isEmpty && (rest == ['.', 'p', 'y'] || rest == ['.', 'p', 'y', '\n'])

/-- Code-point comparison of strings, as Python compares them. -/
def charListLe : List Char → List Char → Bool
  | [], _ => true
  | _ :: _, [] => false
  | a :: as, b :: bs => if a < b then true else if b < a then false else charListLe as bs

/-- String order used by `names.sort()`. -/
def strLe (a b : String) : Bool := charListLe a.data b.data

/-- Insert into an already sorted list. -/
def insertSorted (s : String) : List String → List String
  | [] => [s]
  | t :: r => if strLe s t then s :: t :: r else t :: insertSorted s r

/-- `names.sort()`: sort names into code-point order. -/
def sortStrings : List String → List String
  | [] => []
  | s :: r => insertSorted s (sortStrings r)

/-- One iteration of the `for name in names` loop of `recursedown`: skip
`.`/`..`, silently skip symbolic links, remember directories for the second
phase, and `fix` regular entries whose name looks like a Python module.
State: failure flag, live entries, messages, collected subdirectories. -/
def visitName (cfg : Config) (orc : Oracle) (dirp : Path)
    (st : Bool × Entries × List Ev × List String) (name : String) :
    Bool × Entries × List Ev × List String :=
  if name = "." ∨ name = ".." then st
  else
    match lookupEntry st.2.1 name with
    | some (.link _) => st
    | some (.dir _) => (st.1, st.2.1, st.2.2.1, st.2.2.2 ++ [name])
    | _ =>
      if ispython name then
        let r := fixInDir cfg orc (dirp ++ [name]) st.2.1 name
        (st.1 || r.1, r.2.1, st.2.2.1 ++ r.2.2, st.2.2.2)
      else st

/-- Apply `g` to the node behind a (possibly empty) chain of links,
rebuilding the chain around the result (used because `os.listdir` follows
links). -/
def throughLinks (g : Node → Bool × Node × List Ev) : Node → Bool × Node × List Ev
  | .link t =>
    let r := throughLinks g t
    (r.1, .link r.2.1, r.2.2)
  | n => g n

/-- `recursedown(dirname)`, on the node at path `p`, with explicit fuel
bounding the recursion depth (any fuel larger than the tree's depth gives
the program's behaviour): print the debug line, sort the listing, run the
name loop, then recurse into the collected subdirectories in order.
A node that is no directory reports a listing error. -/
def recursedownGo (cfg : Config) (orc : Oracle) : Nat → Path → Node → Bool × Node × List Ev
  | 0, _, n => (true, n, [])
  | fuel + 1, p, n =>
    throughLinks (fun m =>
      match m with
      | .dir es =>
        let names := sortStrings (es.map Prod.fst)
        let st := names.foldl (visitName cfg orc p) (false, es, [], [])
        let second := st.2.2.2.foldl (fun (acc : Bool × Entries × List Ev) sub =>
          match lookupEntry acc.2.1 sub with
          | some child =>
            let r := recursedownGo cfg orc fuel (p ++ [sub]) child
            (acc.1 || r.1, setEntry acc.2.1 sub r.2.1, acc.2.2 ++ r.2.2)
          | none =>
            (true, acc.2.1,
              acc.2.2 ++ [.recurseDbg (p ++ [sub]), .errListDir (p ++ [sub])]))
          (st.1, st.2.1, st.2.2.1)
        (second.1, .dir second.2.1, .recurseDbg p :: second.2.2)
      | other => (true, other, [.recurseDbg p, .errListDir p])) n

/- ### Path resolution and the top level -/

/-- The entries of the directory a node (after following links) denotes. -/
def dirEntriesOf (n : Node) : Option Entries :=
  match derefAll n with
  | .dir es => some es
  | _ => none

/-- Walk a path from a node, following links on intermediate components but
not on the final one. -/
def resolveNoFollow : Node → Path → Option Node
  | n, [] => some n
  | n, c :: rest =>
    match dirEntriesOf n with
    | some es =>
      match lookupEntry es c with
      | some child => resolveNoFollow child rest
      | none => none
    | none => none

/-- `os.path.isdir` (follows links; false for missing paths). -/
def isdirAt (root : Node) (p : Path) : Bool :=
  match resolveNoFollow root p with
  | some n =>
    match derefAll n with
    | .dir _ => true
    | _ => false
  | none => false

/-- `os.path.islink` (never follows the final component). -/
def islinkAt (root : Node) (p : Path) : Bool :=
  match resolveNoFollow root p with
  | some (.link _) => true
  | _ => false

/-- Link-following version of `throughLinks` for fallible updates. -/
def throughLinksO (g : Node → Option (α × Node)) : Node → Option (α × Node)
  | .link t => (throughLinksO g t).map (fun r => (r.1, .link r.2))
  | n => g n

/-- Run an update at the node a path denotes (links followed everywhere),
propagating the rebuilt tree; `none` when the path does not resolve. -/
def modifyAt (f : Node → α × Node) : Node → Path → Option (α × Node)
  | n, [] => throughLinksO (fun m => some (f m)) n
  | n, c :: rest =>
    throughLinksO (fun m =>
      match m with
      | .dir es =>
        match lookupEntry es c with
        | some child => (modifyAt f child rest).map (fun r => (r.1, .dir (setEntry es c r.2)))
        | none => none
      | _ => none) n

/-- `fix(filename)` at a full path: run `fixInDir` inside the parent
directory; a path that does not resolve to a directory entry reports the
open failure `fix` would hit. -/
def fixAt (cfg : Config) (orc : Oracle) (root : Node) (p : Path) : Bool × Node × List Ev :=
  match p.getLast? with
  | some name =>
    match modifyAt (fun m =>
      match m with
      | .dir es =>
        let r := fixInDir cfg orc p es name
        ((r.1, r.2.2), .dir r.2.1)
      | other => ((true, [.errOpen p]), other)) root p.dropLast with
    | some r => (r.1.1, r.2, r.1.2)
    | none => (true, root, [.errOpen p])
  | none => (true, root, [.errOpen p])

/-- Split an argument string into path components (empty components
dropped). -/
def splitSlash : List Char → List Char → List String
  | [], cur => [String.mk cur.reverse]
  | c :: rest, cur =>
    if c = '/' then String.mk cur.reverse :: splitSlash rest []
    else splitSlash rest (c :: cur)

/-- Path denoted by a command-line argument. -/
def toPath (s : String) : Path := (splitSlash s.data []).filter (fun c => ¬ c = "")

mutual

/-- A computable size of a node, used as recursion fuel for the traversal
(it bounds the nesting depth of every tree reachable while fixing files,
since `fix` only creates file entries). -/
def nodeSize : Node → Nat
  | .file _ _ _ _ => 1
  | .link t => nodeSize t + 1
  | .dir es => entriesSize es + 1

/-- Total size of a directory listing. -/
def entriesSize : Entries → Nat
  | [] => 0
  | (_, n) :: r => nodeSize n + entriesSize r + 1

end

/-- One iteration of the argument loop of `main`: directories (including
links to directories, which `os.path.isdir` accepts) are recursed into,
remaining links are rejected, everything else goes to `fix`. -/
def processArg (cfg : Config) (orc : Oracle) (fs : Node) (arg : String) : Bool × Node × List Ev :=
  let p := toPath arg
  if isdirAt fs p then
    match modifyAt (fun m =>
      let r := recursedownGo cfg orc (nodeSize fs + 1) p m
      ((r.1, r.2.2), r.2.1)) fs p with
    | some r => (r.1.1, r.2, r.1.2)
    | none => (true, fs, [.errListDir p])
  else if islinkAt fs p then (true, fs, [.errSymlink p])
  else fixAt cfg orc fs p

/-- The argument loop of `main`: process every argument, accumulating the
failure flag. -/
def mainLoop (cfg : Config) (orc : Oracle) : Node → List String → Bool × Node × List Ev
  | fs, [] => (false, fs, [])
  | fs, a :: rest =>
    let r := processArg cfg orc fs a
    let r2 := mainLoop cfg orc r.2.1 rest
    (r.1 || r2.1, r2.2.1, r.2.2 ++ r2.2.2)

/- ### Option parsing (`getopt.getopt(argv, 'i:a:kpn')` and the option loop) -/

/-- Short options taking an argument. -/
def optTakesArg (c : Char) : Bool := c == 'i' || c == 'a'

/-- Short options without an argument. -/
def optIsFlag (c : Char) : Bool := c == 'k' || c == 'p' || c == 'n'

/-- Parse one clustered short-option argv element against `'i:a:kpn'`;
`nxt` is the following argv element (consumed when an option needs an
argument and the cluster is exhausted, reported in the boolean). -/
def parseCluster : List Char → Option String → Except Unit (List (String × String) × Bool)
  | [], _ => .ok ([], false)
  | c :: cs, nxt =>
    if optTakesArg c then
      match cs with
      | [] =>
        match nxt with
        | some v => .ok ([(String.mk ['-', c], v)], true)
        | none => .error ()
      | _ :: _ => .ok ([(String.mk ['-', c], String.mk cs)], false)
    else if optIsFlag c then
      match parseCluster cs nxt with
      | .ok (os, u) => .ok ((String.mk ['-', c], "") :: os, u)
      | .error e => .error e
    else .error ()

/-- `getopt.getopt` with option string `'i:a:kpn'`: options up to the first
non-option (or `--`), then the positional arguments. -/
def getoptModel : List String → Except Unit (List (String × String) × List String)
  | [] => .ok ([], [])
  | a :: rest =>
    if a = "--" then .ok ([], rest)
    else
      match a.data with
      | '-' :: c :: cs =>
        (match parseCluster (c :: cs) rest.head? with
        | .error _ => .error ()
        | .ok (opts1, used) =>
          if used then
            match rest with
            | [] => .error ()
            | _ :: rest2 =>
              match getoptModel rest2 with
              | .ok (os, args) => .ok (opts1 ++ os, args)
              | .error e => .error e
          else
            match getoptModel rest with
            | .ok (os, args) => .ok (opts1 ++ os, args)
            | .error e => .error e)
      | _ => .ok ([], a :: rest)

/-- The `for o, a in opts` loop of `main`: set the five globals, rejecting
an `-a` argument containing a space byte. -/
def processOpts : Config → List (String × String) → Except Unit Config
  | cfg, [] => .ok cfg
  | cfg, (o, a) :: rest =>
    let c1 := if o = "-i" then { cfg with newInterpreter := some (strToBytes a) } else cfg
    let c2 := if o = "-p" then { c1 with preserveTimestamps := true } else c1
    let c3 := if o = "-n" then { c2 with createBackup := false } else c2
    let c4 := if o = "-k" then { c3 with keepFlags := true } else c3
    if o = "-a" then
      if 32 ∈ strToBytes a then .error ()
      else processOpts { c4 with addFlags := strToBytes a } rest
    else processOpts c4 rest

/-- The interpreter check of `main`: missing, empty (falsy) or not
absolute. -/
def interpBad : Option Bytes → Bool
  | none => true
  | some i => i == [] || !(leadsWith [47] i)

/-- Everything `main` does before touching the filesystem; `none` is a
usage error (exit code 2). -/
def parseArgv (argv : List String) : Option (Config × List String) :=
  match getoptModel argv with
  | .error _ => none
  | .ok (opts, args) =>
    match processOpts defaultConfig opts with
    | .error _ => none
    | .ok cfg =>
      if interpBad cfg.newInterpreter || args.isEmpty then none else some (cfg, args)

/-- `main()`: parse the command line, then process every target; the first
component is the exit code. -/
def mainRun (orc : Oracle) (argv : List String) (fs : Node) : Nat × Node × List Ev :=
  match parseArgv argv with
  | none => (2, fs, [.usageErr])
  | some (cfg, args) =>
    let r := mainLoop cfg orc fs args
    (if r.1 then 1 else 0, r.2.1, r.2.2)

/- ### Association-list and name lemmas -/

theorem lookupEntry_setEntry_self (es : Entries) (k : String) (v : Node) :
    lookupEntry (setEntry es k v) k = some v := by
  induction es with
  | nil => simp [setEntry, lookupEntry]
  | cons e r ih =>
    obtain ⟨k0, v0⟩ := e
    by_cases h : k0 = k
    · subst h
      simp [setEntry, lookupEntry]
    · rw [setEntry, if_neg h, lookupEntry, if_neg h, ih]

theorem lookupEntry_setEntry_ne (es : Entries) (k : String) (v : Node) {s : String}
    (h : k ≠ s) : lookupEntry (setEntry es k v) s = lookupEntry es s := by
  induction es with
  | nil => simp [setEntry, lookupEntry, h]
  | cons e r ih =>
    obtain ⟨k0, v0⟩ := e
    by_cases he : k0 = k
    · subst he
      rw [setEntry, if_pos rfl, lookupEntry, if_neg h, lookupEntry, if_neg h]
    · rw [setEntry, if_neg he, lookupEntry, lookupEntry, ih]

theorem lookupEntry_removeEntry_ne (es : Entries) (k : String) {s : String}
    (h : k ≠ s) : lookupEntry (removeEntry es k) s = lookupEntry es s := by
  induction es with
  | nil => simp [removeEntry]
  | cons e r ih =>
    obtain ⟨k0, v0⟩ := e
    by_cases he : k0 = k
    · subst he
      rw [removeEntry, if_pos rfl, lookupEntry, if_neg h]
    · rw [removeEntry, if_neg he, lookupEntry, lookupEntry, ih]

theorem char_cons_ne_append_tilde : ∀ (l : List Char), '@' :: l ≠ l ++ ['~']
  | [], h => by simp at h
  | a :: r, h => by
    rw [List.cons_append] at h
    injection h with h1 h2
    exact char_cons_ne_append_tilde r (h1 ▸ h2)

theorem string_ne_temp (s : String) : s ≠ "@" ++ s := by
  intro h
  have hl := congrArg String.length h
  rw [String.length_append] at hl
  have h1 : "@".length = 1 := rfl
  omega

theorem string_ne_backup (s : String) : s ≠ s ++ "~" := by
  intro h
  have hl := congrArg String.length h
  rw [String.length_append] at hl
  have h1 : "~".length = 1 := rfl
  omega

theorem temp_ne_backup (s : String) : "@" ++ s ≠ s ++ "~" := by
  intro h
  have hd := congrArg String.data h
  simp only [String.data_append] at hd
  exact char_cons_ne_append_tilde s.data hd

/- ### Claim theorems about a single `fix` -/

theorem fixInDir_noChange {cfg : Config} {orc : Oracle} {p : Path} {es : Entries}
    {name : String} {c : Bytes}
    (ho : orc.openFails = false) (hr : openRead es name = some c)
    (h : fixline cfg (readFirstLine c) = readFirstLine c) :
    fixInDir cfg orc p es name = (false, es, [.noChange p]) := by
  simp [fixInDir, hr, ho, h]

/-- C3: a first line that does not start with `#!` or does not contain
`python` is returned unchanged by `fixline`, and `fix` on a readable file
with such a first line reports no change, succeeds and leaves the
directory untouched. -/
theorem non_python_line_untouched (cfg : Config) (L : Bytes)
    (h : leadsWith bShebang L = false ∨ hasSub bPython L = false) :
    fixline cfg L = L
    ∧ ∀ (orc : Oracle) (p : Path) (es : Entries) (name : String) (c : Bytes),
        orc.openFails = false → openRead es name = some c →
        (leadsWith bShebang (readFirstLine c) = false ∨
          hasSub bPython (readFirstLine c) = false) →
        fixInDir cfg orc p es name = (false, es, [.noChange p]) := by
  refine ⟨fixline_eq_self_of_guard (h.elim Or.inl (fun h2 => Or.inr (Or.inl h2))), ?_⟩
  intro orc p es name c ho hr hc
  exact fixInDir_noChange ho hr
    (fixline_eq_self_of_guard (hc.elim Or.inl (fun h2 => Or.inr (Or.inl h2))))

/-- Witness for C3 on the line `#!/bin/sh\n` (no `python`): the line is kept
and a file holding it is left alone. -/
theorem non_python_line_untouched_witness :
    fixline ⟨some (strToBytes "/usr/bin/python3"), false, true, false, []⟩
        (strToBytes "#!/bin/sh\n")
      = strToBytes "#!/bin/sh\n"
    ∧ fixInDir ⟨some (strToBytes "/usr/bin/python3"), false, true, false, []⟩ okOracle
        ["s"] [("s", .file (strToBytes "#!/bin/sh\nbody") 493 5 6)] "s"
      = (false, [("s", .file (strToBytes "#!/bin/sh\nbody") 493 5 6)], [.noChange ["s"]]) := by
  have h := non_python_line_untouched
    ⟨some (strToBytes "/usr/bin/python3"), false, true, false, []⟩
    (strToBytes "#!/bin/sh\n") (Or.inr (by decide))
  exact ⟨h.1, h.2 okOracle ["s"] [("s", .file (strToBytes "#!/bin/sh\nbody") 493 5 6)] "s"
    (strToBytes "#!/bin/sh\nbody") rfl rfl (Or.inr (by decide))⟩

/-- C5: when the rewritten first line equals the existing one, `fix`
reports `no change`, returns success, and performs no filesystem mutation
at all: the directory (contents, modes, timestamps, and absence of any
`@`-temporary) is exactly as before. -/
theorem fix_no_change_frame (cfg : Config) (orc : Oracle) (p : Path) (es : Entries)
    (name : String) (c : Bytes)
    (ho : orc.openFails = false) (hr : openRead es name = some c)
    (hfix : fixline cfg (readFirstLine c) = readFirstLine c) :
    fixInDir cfg orc p es name = (false, es, [.noChange p]) :=
  fixInDir_noChange ho hr hfix

/-- Witness for C5: a file already pointing at the configured interpreter
is left untouched. -/
theorem fix_no_change_frame_witness :
    fixInDir ⟨some (strToBytes "/usr/bin/python3"), false, true, false, []⟩ okOracle
        ["a.py"] [("a.py", .file (strToBytes "#! /usr/bin/python3\nbody") 493 5 6)] "a.py"
      = (false, [("a.py", .file (strToBytes "#! /usr/bin/python3\nbody") 493 5 6)],
          [.noChange ["a.py"]]) :=
  fix_no_change_frame ⟨some (strToBytes "/usr/bin/python3"), false, true, false, []⟩ okOracle
    ["a.py"] [("a.py", .file (strToBytes "#! /usr/bin/python3\nbody") 493 5 6)] "a.py"
    (strToBytes "#! /usr/bin/python3\nbody") rfl rfl (by decide)

theorem fixline_preserve_irrel (cfg : Config) (b : Bool) (L : Bytes) :
    fixline { cfg with preserveTimestamps := b } L = fixline cfg L := rfl

theorem fixline_fields_norm (ni : Option Bytes) (pt cb kf : Bool) (ad : Bytes) (L : Bytes) :
    fixline ⟨ni, pt, cb, kf, ad⟩ L = fixline ⟨ni, false, true, kf, ad⟩ L := rfl

/-- C6: after a rewrite with backups enabled on which every OS call
succeeds, `fix` succeeds, the file `name~` holds exactly the original
entry (its pre-rewrite bytes, mode and timestamps), and `name` holds the
new first line followed by the original remainder. -/
theorem fix_backup_invariant (cfg : Config) (orc : Oracle) (p : Path) (es : Entries)
    (name : String) (c : Bytes) (m mt at' : Nat)
    (hb : cfg.createBackup = true)
    (ho : orc.openFails = false) (ht : orc.tempFails = false)
    (hs : orc.statFails = false) (hch : orc.chmodFails = false)
    (hbk : orc.backupFails = false) (hrn : orc.renameFails = false)
    (hu : orc.utimeFails = false)
    (hl : lookupEntry es name = some (.file c m mt at'))
    (hfix : fixline cfg (readFirstLine c) ≠ readFirstLine c) :
    (fixInDir cfg orc p es name).1 = false
    ∧ lookupEntry (fixInDir cfg orc p es name).2.1 (name ++ "~") = some (.file c m mt at')
    ∧ ∃ m2 mt2 at2, lookupEntry (fixInDir cfg orc p es name).2.1 name
        = some (.file (fixline cfg (readFirstLine c) ++ c.drop (readFirstLine c).length)
            m2 mt2 at2) := by
  have hr : openRead es name = some c := by simp [openRead, hl, derefAll]
  have htn : ("@" ++ name) ≠ name := Ne.symm (string_ne_temp name)
  have hbkn : (name ++ "~") ≠ name := Ne.symm (string_ne_backup name)
  have htb : ("@" ++ name) ≠ (name ++ "~") := temp_ne_backup name
  have hnt : name ≠ "@" ++ name := string_ne_temp name
  have hnb : name ≠ name ++ "~" := string_ne_backup name
  have hbt : (name ++ "~") ≠ ("@" ++ name) := Ne.symm (temp_ne_backup name)
  have hstat : statEntry (setEntry es ("@" ++ name)
      (Node.file (fixline cfg (readFirstLine c) ++ List.drop (readFirstLine c).length c)
        orc.newFileMode orc.newFileMtime orc.newFileAtime)) name = some (m, mt, at') := by
    rw [statEntry, lookupEntry_setEntry_ne _ _ _ htn, hl]
    rfl
  by_cases hp : cfg.preserveTimestamps = true
  · by_cases hz : at' ≠ 0 ∧ mt ≠ 0
    · simp [fixInDir, hr, ho, ht, hs, hch, hbk, hrn, hb, hu, hp, hz, if_neg hfix, hstat,
        renameEntry, setEntryMode, setEntryTimes,
        lookupEntry_setEntry_self, lookupEntry_setEntry_ne, lookupEntry_removeEntry_ne,
        htn, hbkn, htb, hnt, hnb, hbt, hl, derefAll]
    · simp [fixInDir, hr, ho, ht, hs, hch, hbk, hrn, hb, hu, hp, hz, if_neg hfix, hstat,
        renameEntry, setEntryMode, setEntryTimes,
        lookupEntry_setEntry_self, lookupEntry_setEntry_ne, lookupEntry_removeEntry_ne,
        htn, hbkn, htb, hnt, hnb, hbt, hl, derefAll]
  · simp [fixInDir, hr, ho, ht, hs, hch, hbk, hrn, hb, hu, hp, if_neg hfix, hstat,
        renameEntry, setEntryMode, setEntryTimes,
        lookupEntry_setEntry_self, lookupEntry_setEntry_ne, lookupEntry_removeEntry_ne,
        htn, hbkn, htb, hnt, hnb, hbt, hl, derefAll]

/-- Witness for C6: rewriting `a.py` (shebang `#!/usr/bin/python`) with
backups on leaves `a.py~` holding the original entry and `a.py` holding
the rewritten content. -/
theorem fix_backup_invariant_witness :
    (fixInDir ⟨some (strToBytes "/usr/bin/python3"), false, true, false, []⟩ okOracle
        ["a.py"] [("a.py", .file (strToBytes "#!/usr/bin/python\nbody") 493 5 6)] "a.py").1
      = false
    ∧ lookupEntry (fixInDir ⟨some (strToBytes "/usr/bin/python3"), false, true, false, []⟩
        okOracle ["a.py"] [("a.py", .file (strToBytes "#!/usr/bin/python\nbody") 493 5 6)]
        "a.py").2.1 ("a.py" ++ "~")
      = some (.file (strToBytes "#!/usr/bin/python\nbody") 493 5 6)
    ∧ ∃ m2 mt2 at2, lookupEntry
        (fixInDir ⟨some (strToBytes "/usr/bin/python3"), false, true, false, []⟩ okOracle
          ["a.py"] [("a.py", .file (strToBytes "#!/usr/bin/python\nbody") 493 5 6)]
          "a.py").2.1 "a.py"
        = some (.file (fixline ⟨some (strToBytes "/usr/bin/python3"), false, true, false, []⟩
              (readFirstLine (strToBytes "#!/usr/bin/python\nbody"))
            ++ (strToBytes "#!/usr/bin/python\nbody").drop
              (readFirstLine (strToBytes "#!/usr/bin/python\nbody")).length) m2 mt2 at2) :=
  fix_backup_invariant ⟨some (strToBytes "/usr/bin/python3"), false, true, false, []⟩ okOracle
    ["a.py"] [("a.py", .file (strToBytes "#!/usr/bin/python\nbody") 493 5 6)] "a.py"
    (strToBytes "#!/usr/bin/python\nbody") 493 5 6
    rfl rfl rfl rfl rfl rfl rfl rfl rfl (by decide)

/-- C10: when backups are enabled but the rename to `name~` fails, `fix`
only warns and proceeds: the temporary is still renamed over the original
(whose bytes are gone — no backup appears, `name~` is untouched), the
messages are exactly the progress line and the warning, and `fix` still
returns success. -/
theorem fix_backup_failure_warning (cfg : Config) (orc : Oracle) (p : Path) (es : Entries)
    (name : String) (c : Bytes) (m mt at' : Nat)
    (hb : cfg.createBackup = true)
    (ho : orc.openFails = false) (ht : orc.tempFails = false)
    (hs : orc.statFails = false) (hch : orc.chmodFails = false)
    (hbk : orc.backupFails = true) (hrn : orc.renameFails = false)
    (hu : orc.utimeFails = false)
    (hl : lookupEntry es name = some (.file c m mt at'))
    (hfix : fixline cfg (readFirstLine c) ≠ readFirstLine c) :
    (fixInDir cfg orc p es name).1 = false
    ∧ (∃ m2 mt2 at2, lookupEntry (fixInDir cfg orc p es name).2.1 name
        = some (.file (fixline cfg (readFirstLine c) ++ c.drop (readFirstLine c).length)
            m2 mt2 at2))
    ∧ lookupEntry (fixInDir cfg orc p es name).2.1 (name ++ "~")
        = lookupEntry es (name ++ "~")
    ∧ (fixInDir cfg orc p es name).2.2 = [.updating p, .warnBackup p] := by
  have hr : openRead es name = some c := by simp [openRead, hl, derefAll]
  have htn : ("@" ++ name) ≠ name := Ne.symm (string_ne_temp name)
  have hbkn : (name ++ "~") ≠ name := Ne.symm (string_ne_backup name)
  have htb : ("@" ++ name) ≠ (name ++ "~") := temp_ne_backup name
  have hnt : name ≠ "@" ++ name := string_ne_temp name
  have hnb : name ≠ name ++ "~" := string_ne_backup name
  have hbt : (name ++ "~") ≠ ("@" ++ name) := Ne.symm (temp_ne_backup name)
  have hstat : statEntry (setEntry es ("@" ++ name)
      (Node.file (fixline cfg (readFirstLine c) ++ List.drop (readFirstLine c).length c)
        orc.newFileMode orc.newFileMtime orc.newFileAtime)) name = some (m, mt, at') := by
    rw [statEntry, lookupEntry_setEntry_ne _ _ _ htn, hl]
    rfl
  by_cases hp : cfg.preserveTimestamps = true
  · by_cases hz : at' ≠ 0 ∧ mt ≠ 0
    · simp [fixInDir, hr, ho, ht, hs, hch, hbk, hrn, hb, hu, hp, hz, if_neg hfix, hstat,
        renameEntry, setEntryMode, setEntryTimes,
        lookupEntry_setEntry_self, lookupEntry_setEntry_ne, lookupEntry_removeEntry_ne,
        htn, hbkn, htb, hnt, hnb, hbt, hl, derefAll]
    · simp [fixInDir, hr, ho, ht, hs, hch, hbk, hrn, hb, hu, hp, hz, if_neg hfix, hstat,
        renameEntry, setEntryMode, setEntryTimes,
        lookupEntry_setEntry_self, lookupEntry_setEntry_ne, lookupEntry_removeEntry_ne,
        htn, hbkn, htb, hnt, hnb, hbt, hl, derefAll]
  · simp [fixInDir, hr, ho, ht, hs, hch, hbk, hrn, hb, hu, hp, if_neg hfix, hstat,
        renameEntry, setEntryMode, setEntryTimes,
        lookupEntry_setEntry_self, lookupEntry_setEntry_ne, lookupEntry_removeEntry_ne,
        htn, hbkn, htb, hnt, hnb, hbt, hl, derefAll]

/-- Witness for C10: with the backup rename failing, the rewrite of `a.py`
still succeeds, the content is replaced, no backup appears and the
messages are the progress line and the warning. -/
theorem fix_backup_failure_warning_witness :
    (fixInDir ⟨some (strToBytes "/usr/bin/python3"), false, true, false, []⟩
        ⟨false, false, false, false, true, false, false, false, 420, 7, 7⟩
        ["a.py"] [("a.py", .file (strToBytes "#!/usr/bin/python\nbody") 493 5 6)] "a.py").1
      = false
    ∧ (∃ m2 mt2 at2, lookupEntry
        (fixInDir ⟨some (strToBytes "/usr/bin/python3"), false, true, false, []⟩
          ⟨false, false, false, false, true, false, false, false, 420, 7, 7⟩
          ["a.py"] [("a.py", .file (strToBytes "#!/usr/bin/python\nbody") 493 5 6)]
          "a.py").2.1 "a.py"
        = some (.file (fixline ⟨some (strToBytes "/usr/bin/python3"), false, true, false, []⟩
              (readFirstLine (strToBytes "#!/usr/bin/python\nbody"))
            ++ (strToBytes "#!/usr/bin/python\nbody").drop
              (readFirstLine (strToBytes "#!/usr/bin/python\nbody")).length) m2 mt2 at2))
    ∧ lookupEntry (fixInDir ⟨some (strToBytes "/usr/bin/python3"), false, true, false, []⟩
        ⟨false, false, false, false, true, false, false, false, 420, 7, 7⟩
        ["a.py"] [("a.py", .file (strToBytes "#!/usr/bin/python\nbody") 493 5 6)]
        "a.py").2.1 ("a.py" ++ "~")
      = lookupEntry [("a.py", .file (strToBytes "#!/usr/bin/python\nbody") 493 5 6)]
          ("a.py" ++ "~")
    ∧ (fixInDir ⟨some (strToBytes "/usr/bin/python3"), false, true, false, []⟩
        ⟨false, false, false, false, true, false, false, false, 420, 7, 7⟩
        ["a.py"] [("a.py", .file (strToBytes "#!/usr/bin/python\nbody") 493 5 6)] "a.py").2.2
      = [.updating ["a.py"], .warnBackup ["a.py"]] :=
  fix_backup_failure_warning ⟨some (strToBytes "/usr/bin/python3"), false, true, false, []⟩
    ⟨false, false, false, false, true, false, false, false, 420, 7, 7⟩
    ["a.py"] [("a.py", .file (strToBytes "#!/usr/bin/python\nbody") 493 5 6)] "a.py"
    (strToBytes "#!/usr/bin/python\nbody") 493 5 6
    rfl rfl rfl rfl rfl rfl rfl rfl rfl (by decide)

/-- C9: when `-p` is requested but the stat failed (no times captured) or a
captured time is zero, `fix` skips the restoration entirely: it behaves
exactly as if `-p` were off, reports no timestamp error, and still
succeeds. -/
theorem fix_skip_timestamp_restore (cfg : Config) (orc : Oracle) (p : Path) (es : Entries)
    (name : String) (c : Bytes) (m mt at' : Nat)
    (ho : orc.openFails = false) (ht : orc.tempFails = false)
    (hrn : orc.renameFails = false)
    (hl : lookupEntry es name = some (.file c m mt at'))
    (hz : orc.statFails = true ∨ mt = 0 ∨ at' = 0) :
    fixInDir cfg orc p es name = fixInDir { cfg with preserveTimestamps := false } orc p es name
    ∧ (fixInDir cfg orc p es name).1 = false
    ∧ ∀ q, Ev.errUtime q ∉ (fixInDir cfg orc p es name).2.2 := by
  obtain ⟨ni, pt, cb, kf, ad⟩ := cfg
  have hr : openRead es name = some c := by simp [openRead, hl, derefAll]
  have htn : ("@" ++ name) ≠ name := Ne.symm (string_ne_temp name)
  have hstat : ∀ cfg2 : Config, statEntry (setEntry es ("@" ++ name)
      (Node.file (fixline cfg2 (readFirstLine c) ++ List.drop (readFirstLine c).length c)
        orc.newFileMode orc.newFileMtime orc.newFileAtime)) name = some (m, mt, at') := by
    intro cfg2
    rw [statEntry, lookupEntry_setEntry_ne _ _ _ htn, hl]
    rfl
  by_cases hfx : fixline ⟨ni, false, true, kf, ad⟩ (readFirstLine c) = readFirstLine c
  · have h1 := @fixInDir_noChange ⟨ni, pt, cb, kf, ad⟩ orc p es name c ho hr
      ((fixline_fields_norm ni pt cb kf ad _).trans hfx)
    have h2 := @fixInDir_noChange ⟨ni, false, cb, kf, ad⟩ orc p es name c ho hr
      ((fixline_fields_norm ni false cb kf ad _).trans hfx)
    refine ⟨?_, ?_, ?_⟩ <;> simp [h1, h2]
  · have hcond : orc.statFails = true ∨ ¬(at' ≠ 0 ∧ mt ≠ 0) := by
      rcases hz with h | h | h
      · exact Or.inl h
      · exact Or.inr (fun hc => hc.2 h)
      · exact Or.inr (fun hc => hc.1 h)
    refine ⟨?_, ?_, ?_⟩
    · rcases hcond with hsf | hc
      · simp [fixInDir, hr, ho, ht, hrn, hsf, hfx, fixline_fields_norm]
      · cases hsf : orc.statFails <;> cases hcm : orc.chmodFails <;>
          simp [fixInDir, hr, ho, ht, hrn, hsf, hcm, hstat, hc, hfx, fixline_fields_norm]
    · rcases hcond with hsf | hc
      · simp [fixInDir, hr, ho, ht, hrn, hsf, hfx, fixline_fields_norm]
      · cases hsf : orc.statFails <;> cases hcm : orc.chmodFails <;>
          simp [fixInDir, hr, ho, ht, hrn, hsf, hcm, hstat, hc, hfx, fixline_fields_norm]
    · intro q
      rcases hcond with hsf | hc
      · cases hcb : cb <;> cases hbf : orc.backupFails <;> cases hrm : orc.removeFails <;>
          simp [fixInDir, hr, ho, ht, hrn, hsf, hcb, hbf, hrm, hfx, fixline_fields_norm]
      · cases hsf : orc.statFails <;> cases hcm : orc.chmodFails <;>
          cases hcb : cb <;> cases hbf : orc.backupFails <;> cases hrm : orc.removeFails <;>
          simp [fixInDir, hr, ho, ht, hrn, hsf, hcm, hcb, hbf, hrm, hstat, hc, hfx,
            fixline_fields_norm]

/-- Witness for C9: with `-p` set and the stat failing, `fix` behaves like a
run without `-p`, succeeds, and never reports a timestamp error. -/
theorem fix_skip_timestamp_restore_witness :
    fixInDir ⟨some (strToBytes "/usr/bin/python3"), true, true, false, []⟩
        ⟨false, false, true, false, false, false, false, false, 420, 7, 7⟩
        ["a.py"] [("a.py", .file (strToBytes "#!/usr/bin/python\nbody") 493 5 6)] "a.py"
      = fixInDir ⟨some (strToBytes "/usr/bin/python3"), false, true, false, []⟩
        ⟨false, false, true, false, false, false, false, false, 420, 7, 7⟩
        ["a.py"] [("a.py", .file (strToBytes "#!/usr/bin/python\nbody") 493 5 6)] "a.py"
    ∧ (fixInDir ⟨some (strToBytes "/usr/bin/python3"), true, true, false, []⟩
        ⟨false, false, true, false, false, false, false, false, 420, 7, 7⟩
        ["a.py"] [("a.py", .file (strToBytes "#!/usr/bin/python\nbody") 493 5 6)] "a.py").1
      = false
    ∧ ∀ q, Ev.errUtime q ∉ (fixInDir ⟨some (strToBytes "/usr/bin/python3"), true, true, false, []⟩
        ⟨false, false, true, false, false, false, false, false, 420, 7, 7⟩
        ["a.py"] [("a.py", .file (strToBytes "#!/usr/bin/python\nbody") 493 5 6)] "a.py").2.2 :=
  fix_skip_timestamp_restore ⟨some (strToBytes "/usr/bin/python3"), true, true, false, []⟩
    ⟨false, false, true, false, false, false, false, false, 420, 7, 7⟩
    ["a.py"] [("a.py", .file (strToBytes "#!/usr/bin/python\nbody") 493 5 6)] "a.py"
    (strToBytes "#!/usr/bin/python\nbody") 493 5 6
    rfl rfl rfl rfl (Or.inl rfl)

/- ### Claim theorems about the argument loop of `main` -/

/-- C4 is false as stated: `main` tests `os.path.isdir` (which follows
links) before `os.path.islink`, so a symbolic link pointing to a directory
given as a top-level argument is traversed as a directory instead of being
rejected — here the argument `d` is a link, yet the run reports no error
and exits 0. -/
theorem symlink_dir_arg_counterexample :
    islinkAt (.dir [("d", .link (.dir []))]) (toPath "d") = true
    ∧ (mainRun okOracle ["-i", "/usr/bin/python3", "d"]
        (.dir [("d", .link (.dir []))])).1 = 0 :=
  ⟨rfl, rfl⟩

/-- C4 (amended): a top-level argument that is a symbolic link *not*
pointing to a directory is rejected: nothing in the tree is modified by
that argument (the remaining arguments run on the unchanged tree), the
symlink error is reported, overall failure is recorded, and the remaining
arguments are still processed.  (A symlink pointing to a directory is
instead traversed as a directory.) -/
theorem symlink_arg_rejected_amended (cfg : Config) (orc : Oracle) (fs : Node)
    (arg : String) (rest : List String)
    (hl : islinkAt fs (toPath arg) = true)
    (hd : isdirAt fs (toPath arg) = false) :
    mainLoop cfg orc fs (arg :: rest)
      = (true, (mainLoop cfg orc fs rest).2.1,
          .errSymlink (toPath arg) :: (mainLoop cfg orc fs rest).2.2) := by
  have hpa : processArg cfg orc fs arg = (true, fs, [.errSymlink (toPath arg)]) := by
    simp [processArg, hd, hl]
  simp [mainLoop, hpa]

/-- Witness for the amended C4: a symlink to a regular file given as the
only argument is rejected with an error and the loop records failure. -/
theorem symlink_arg_rejected_amended_witness :
    mainLoop ⟨some (strToBytes "/usr/bin/python3"), false, true, false, []⟩ okOracle
        (.dir [("f", .link (.file (strToBytes "#!/usr/bin/python\n") 493 5 6))]) ["f"]
      = (true,
         (mainLoop ⟨some (strToBytes "/usr/bin/python3"), false, true, false, []⟩ okOracle
           (.dir [("f", .link (.file (strToBytes "#!/usr/bin/python\n") 493 5 6))]) []).2.1,
         .errSymlink (toPath "f")
           :: (mainLoop ⟨some (strToBytes "/usr/bin/python3"), false, true, false, []⟩ okOracle
             (.dir [("f", .link (.file (strToBytes "#!/usr/bin/python\n") 493 5 6))]) []).2.2) :=
  symlink_arg_rejected_amended ⟨some (strToBytes "/usr/bin/python3"), false, true, false, []⟩
    okOracle (.dir [("f", .link (.file (strToBytes "#!/usr/bin/python\n") 493 5 6))])
    "f" [] rfl rfl

/- ### Claim theorems about exit codes -/

/-- The interpreter selected by the option list: the argument of the last
`-i` occurrence (later occurrences override earlier ones). -/
def lastInterp : List (String × String) → Option Bytes
  | [] => none
  | (o, a) :: rest =>
    if o = "-i" then (lastInterp rest).or (some (strToBytes a)) else lastInterp rest

/-- The usage-error condition as the (amended) claim words it: the option
parser rejects the command line, some `-a` argument contains a space byte,
the last `-i` is missing, empty or not absolute, or there are no
targets. -/
def usageErrB (argv : List String) : Bool :=
  match getoptModel argv with
  | .error _ => true
  | .ok (opts, args) =>
    opts.any (fun pr => pr.1 == "-a" && decide (32 ∈ strToBytes pr.2))
    || interpBad (lastInterp opts)
    || args.isEmpty

/-- The per-target outcomes, in order: the failure flag each argument's
processing reports, threading the filesystem through. -/
def resultsList (cfg : Config) (orc : Oracle) : Node → List String → List Bool
  | _, [] => []
  | fs, a :: rest =>
    (processArg cfg orc fs a).1 :: resultsList cfg orc (processArg cfg orc fs a).2.1 rest

theorem processOpts_error_iff : ∀ (opts : List (String × String)) (cfg : Config),
    processOpts cfg opts = .error ()
      ↔ opts.any (fun pr => pr.1 == "-a" && decide (32 ∈ strToBytes pr.2)) = true
  | [], cfg => by simp [processOpts]
  | (o, a) :: rest, cfg => by
    by_cases ha : o = "-a"
    · subst ha
      by_cases hc : 32 ∈ strToBytes a
      · simp [processOpts, hc]
      · simp [processOpts, hc, processOpts_error_iff rest]
    · simp [processOpts, ha, processOpts_error_iff rest]

theorem processOpts_interp : ∀ (opts : List (String × String)) (cfg cfg' : Config),
    processOpts cfg opts = .ok cfg' →
    cfg'.newInterpreter = (lastInterp opts).or cfg.newInterpreter
  | [], cfg, cfg', h => by
    simp [processOpts] at h
    simp [← h, lastInterp]
  | (o, a) :: rest, cfg, cfg', h => by
    by_cases ha : o = "-a"
    · subst ha
      by_cases hc : 32 ∈ strToBytes a
      · simp [processOpts, hc] at h
      · simp [processOpts, hc] at h
        have hih := processOpts_interp rest _ cfg' h
        simpa [lastInterp] using hih
    · by_cases hi : o = "-i"
      · subst hi
        simp [processOpts, ha] at h
        have hih := processOpts_interp rest _ cfg' h
        simp only [lastInterp]
        rw [if_pos trivial, Option.or_assoc]
        simpa using hih
      · simp [processOpts, ha, hi] at h
        have hih := processOpts_interp rest _ cfg' h
        rw [lastInterp, if_neg hi]
        rw [hih]
        simp [apply_ite (fun cfg : Config => cfg.newInterpreter), hi]

theorem mainLoop_fst_resultsList (cfg : Config) (orc : Oracle) :
    ∀ (args : List String) (fs : Node),
      (mainLoop cfg orc fs args).1 = (resultsList cfg orc fs args).any id
  | [], fs => by simp [mainLoop, resultsList]
  | a :: rest, fs => by
    simp [mainLoop, resultsList, mainLoop_fst_resultsList cfg orc rest]

theorem resultsList_length (cfg : Config) (orc : Oracle) :
    ∀ (args : List String) (fs : Node),
      (resultsList cfg orc fs args).length = args.length
  | [], fs => by simp [resultsList]
  | a :: rest, fs => by simp [resultsList, resultsList_length cfg orc rest]

/-- C7 is false as stated for "whitespace inside the `-a` argument": the
code checks only the space byte, so a tab inside `-a` is accepted — here
byte 9 (tab) is inside the `-a` argument, which is therefore a usage error
per the claim, yet the exit code is 0, not 2. -/
theorem exit_code_whitespace_counterexample :
    9 ∈ strToBytes "x\ty"
    ∧ (mainRun okOracle ["-i", "/p", "-a", "x\ty", "g"]
        (.dir [("g", .file (strToBytes "#!x\n") 420 1 1)])).1 = 0 :=
  ⟨by decide, rfl⟩

/-- C7 (amended): the exit code is 2 exactly on the usage errors (option
parsing fails, a space byte inside an `-a` argument, last `-i` missing,
empty or not absolute, or no targets), in which case the filesystem is
untouched; otherwise every target is processed (none aborts the rest) and
the exit code is 1 when at least one target reported an error and 0
otherwise. -/
theorem exit_codes_amended (orc : Oracle) (argv : List String) (fs : Node) :
    (parseArgv argv = none ↔ usageErrB argv = true)
    ∧ (usageErrB argv = true → mainRun orc argv fs = (2, fs, [.usageErr]))
    ∧ (∀ cfg args, parseArgv argv = some (cfg, args) →
        (mainRun orc argv fs).1
            = (if (resultsList cfg orc fs args).any id then 1 else 0)
        ∧ (mainRun orc argv fs).2.1 = (mainLoop cfg orc fs args).2.1
        ∧ (resultsList cfg orc fs args).length = args.length) := by
  have hiff : parseArgv argv = none ↔ usageErrB argv = true := by
    unfold parseArgv usageErrB
    cases hgo : getoptModel argv with
    | error e => simp
    | ok pr =>
      obtain ⟨opts, args⟩ := pr
      cases hpo : processOpts defaultConfig opts with
      | error e =>
        cases e
        simp [hpo, (processOpts_error_iff opts defaultConfig).mp hpo]
      | ok cfg =>
        have hany : opts.any (fun pr => pr.1 == "-a" && decide (32 ∈ strToBytes pr.2))
            = false := by
          cases hv : opts.any (fun pr => pr.1 == "-a" && decide (32 ∈ strToBytes pr.2)) with
          | false => rfl
          | true =>
            rw [← processOpts_error_iff opts defaultConfig] at hv
            rw [hv] at hpo
            cases hpo
        have hni := processOpts_interp opts defaultConfig cfg hpo
        have hniv : cfg.newInterpreter = lastInterp opts := by
          rw [hni]
          cases lastInterp opts <;> simp [defaultConfig]
        by_cases hcond : interpBad cfg.newInterpreter = true ∨ args = []
        · have hcond2 : interpBad (lastInterp opts) = true ∨ args = [] := by
            rw [← hniv]
            exact hcond
          simp [hpo, hany, hcond, hcond2]
        · have hcond2 : ¬(interpBad (lastInterp opts) = true ∨ args = []) := by
            rw [← hniv]
            exact hcond
          push_neg at hcond2
          have hfalse : interpBad cfg.newInterpreter = false := by
            rw [hniv]
            exact Bool.eq_false_iff.mpr hcond2.1
          simp [hpo, hany, hcond, hfalse, hcond2.1, hcond2.2]
  refine ⟨hiff, ?_, ?_⟩
  · intro hu
    simp only [mainRun, hiff.mpr hu]
  · intro cfg args hpa
    have hrun : mainRun orc argv fs
        = ((if (mainLoop cfg orc fs args).1 then 1 else 0),
           (mainLoop cfg orc fs args).2.1, (mainLoop cfg orc fs args).2.2) := by
      simp only [mainRun, hpa]
    refine ⟨?_, ?_, resultsList_length cfg orc args fs⟩
    · rw [hrun, mainLoop_fst_resultsList cfg orc args fs]
    · rw [hrun]

/-- Witness for the amended C7: `-x` is a usage error and exits 2 leaving
the tree untouched; `-i /p g` on a non-Python file processes its one
target and exits by the per-target outcomes. -/
theorem exit_codes_amended_witness :
    usageErrB ["-x"] = true
    ∧ mainRun okOracle ["-x"] (.dir []) = (2, .dir [], [.usageErr])
    ∧ (mainRun okOracle ["-i", "/p", "g"]
        (.dir [("g", .file (strToBytes "#!x\n") 420 1 1)])).1
      = (if (resultsList ⟨some (strToBytes "/p"), false, true, false, []⟩ okOracle
          (.dir [("g", .file (strToBytes "#!x\n") 420 1 1)]) ["g"]).any id then 1 else 0) :=
  ⟨rfl,
   (exit_codes_amended okOracle ["-x"] (.dir [])).2.1 rfl,
   ((exit_codes_amended okOracle ["-i", "/p", "g"]
       (.dir [("g", .file (strToBytes "#!x\n") 420 1 1)])).2.2
     ⟨some (strToBytes "/p"), false, true, false, []⟩ ["g"] rfl).1⟩

/- ### Claim theorem about traversal order -/

/-- One listing name, as the specification describes the loop: `.`/`..` and
symbolic links are silently skipped, directories are remembered for the
second phase, and only names matching the module pattern are fixed. -/
def specStep (cfg : Config) (orc : Oracle) (dirp : Path) (es : Entries) (name : String) :
    Bool × Entries × List Ev × List String :=
  if name = "." ∨ name = ".." then (false, es, [], [])
  else
    match lookupEntry es name with
    | some (.link _) => (false, es, [], [])
    | some (.dir _) => (false, es, [], [name])
    | _ =>
      if ispython name then
        ((fixInDir cfg orc (dirp ++ [name]) es name).1,
         (fixInDir cfg orc (dirp ++ [name]) es name).2.1,
         (fixInDir cfg orc (dirp ++ [name]) es name).2.2, [])
      else (false, es, [], [])

/-- The file phase of the traversal: the listing names in order, each one
handled by `specStep` on the live entries. -/
def specVisitFiles (cfg : Config) (orc : Oracle) (dirp : Path) :
    Entries → List String → Bool × Entries × List Ev × List String
  | es, [] => (false, es, [], [])
  | es, name :: rest =>
    let s := specStep cfg orc dirp es name
    let r := specVisitFiles cfg orc dirp s.2.1 rest
    (s.1 || r.1, r.2.1, s.2.2.1 ++ r.2.2.1, s.2.2.2 ++ r.2.2.2)

/-- The subdirectory phase: recurse into each collected name in order
(a name that vanished or stopped being listable reports the listing
error). -/
def specVisitSubdirs (cfg : Config) (orc : Oracle) (fuel : Nat) (dirp : Path) :
    Entries → List String → Bool × Entries × List Ev
  | es, [] => (false, es, [])
  | es, sub :: rest =>
    let s : Bool × Entries × List Ev :=
      match lookupEntry es sub with
      | some child =>
        ((recursedownGo cfg orc fuel (dirp ++ [sub]) child).1,
         setEntry es sub (recursedownGo cfg orc fuel (dirp ++ [sub]) child).2.1,
         (recursedownGo cfg orc fuel (dirp ++ [sub]) child).2.2)
      | none => (true, es, [.recurseDbg (dirp ++ [sub]), .errListDir (dirp ++ [sub])])
    let r := specVisitSubdirs cfg orc fuel dirp s.2.1 rest
    (s.1 || r.1, r.2.1, s.2.2 ++ r.2.2)

theorem visitName_split (cfg : Config) (orc : Oracle) (p : Path) (b : Bool) (es : Entries)
    (evs : List Ev) (sd : List String) (name : String) :
    visitName cfg orc p (b, es, evs, sd) name
      = (b || (specStep cfg orc p es name).1,
         (specStep cfg orc p es name).2.1,
         evs ++ (specStep cfg orc p es name).2.2.1,
         sd ++ (specStep cfg orc p es name).2.2.2) := by
  unfold visitName specStep
  by_cases hdot : name = "." ∨ name = ".."
  · simp [hdot]
  · cases hlk : lookupEntry es name with
    | none =>
      by_cases hpy : ispython name <;> simp [hdot, hlk, hpy]
    | some nd =>
      cases nd with
      | file c m mt at' => by_cases hpy : ispython name <;> simp [hdot, hlk, hpy]
      | dir es2 => simp [hdot, hlk]
      | link t => simp [hdot, hlk]

theorem foldl_visitName (cfg : Config) (orc : Oracle) (p : Path) :
    ∀ (names : List String) (b : Bool) (es : Entries) (evs : List Ev) (sd : List String),
    names.foldl (visitName cfg orc p) (b, es, evs, sd)
      = (b || (specVisitFiles cfg orc p es names).1,
         (specVisitFiles cfg orc p es names).2.1,
         evs ++ (specVisitFiles cfg orc p es names).2.2.1,
         sd ++ (specVisitFiles cfg orc p es names).2.2.2)
  | [], b, es, evs, sd => by simp [specVisitFiles]
  | name :: rest, b, es, evs, sd => by
    rw [List.foldl_cons, visitName_split, foldl_visitName cfg orc p rest]
    simp [specVisitFiles, Bool.or_assoc]

theorem foldl_subdirs (cfg : Config) (orc : Oracle) (fuel : Nat) (p : Path) :
    ∀ (subs : List String) (b : Bool) (es : Entries) (evs : List Ev),
    subs.foldl (fun (acc : Bool × Entries × List Ev) sub =>
          match lookupEntry acc.2.1 sub with
          | some child =>
            let r := recursedownGo cfg orc fuel (p ++ [sub]) child
            (acc.1 || r.1, setEntry acc.2.1 sub r.2.1, acc.2.2 ++ r.2.2)
          | none =>
            (true, acc.2.1,
              acc.2.2 ++ [.recurseDbg (p ++ [sub]), .errListDir (p ++ [sub])]))
        (b, es, evs)
      = (b || (specVisitSubdirs cfg orc fuel p es subs).1,
         (specVisitSubdirs cfg orc fuel p es subs).2.1,
         evs ++ (specVisitSubdirs cfg orc fuel p es subs).2.2)
  | [], b, es, evs => by simp [specVisitSubdirs]
  | sub :: rest, b, es, evs => by
    rw [List.foldl_cons]
    cases hlk : lookupEntry es sub with
    | some child =>
      simp only [hlk]
      rw [foldl_subdirs cfg orc fuel p rest]
      simp [specVisitSubdirs, hlk, Bool.or_assoc]
    | none =>
      simp only [hlk]
      rw [foldl_subdirs cfg orc fuel p rest]
      simp [specVisitSubdirs, hlk]

/-- C8: the traversal of a directory is depth-first: the debug line, then
the files of the sorted listing in lexicographic order, then the collected
subdirectories in order; a symbolic link met during the listing is skipped
silently (no state change, no message); a file whose name does not match
`^[a-zA-Z0-9_]+\.py$` is not a candidate; and a plain file given directly
as an argument is attempted regardless of its name. -/
theorem traversal_order (cfg : Config) (orc : Oracle) :
    (∀ (fuel : Nat) (p : Path) (es : Entries),
      recursedownGo cfg orc (fuel + 1) p (.dir es)
        = ((specVisitFiles cfg orc p es (sortStrings (es.map Prod.fst))).1
             || (specVisitSubdirs cfg orc fuel p
                  (specVisitFiles cfg orc p es (sortStrings (es.map Prod.fst))).2.1
                  (specVisitFiles cfg orc p es (sortStrings (es.map Prod.fst))).2.2.2).1,
           .dir (specVisitSubdirs cfg orc fuel p
                  (specVisitFiles cfg orc p es (sortStrings (es.map Prod.fst))).2.1
                  (specVisitFiles cfg orc p es (sortStrings (es.map Prod.fst))).2.2.2).2.1,
           .recurseDbg p
             :: ((specVisitFiles cfg orc p es (sortStrings (es.map Prod.fst))).2.2.1
                  ++ (specVisitSubdirs cfg orc fuel p
                       (specVisitFiles cfg orc p es (sortStrings (es.map Prod.fst))).2.1
                       (specVisitFiles cfg orc p es (sortStrings (es.map Prod.fst))).2.2.2).2.2)))
    ∧ (∀ (p : Path) (st : Bool × Entries × List Ev × List String) (name : String) (t : Node),
        lookupEntry st.2.1 name = some (.link t) →
        visitName cfg orc p st name = st)
    ∧ (∀ (p : Path) (st : Bool × Entries × List Ev × List String) (name : String)
        (c : Bytes) (m mt at' : Nat),
        lookupEntry st.2.1 name = some (.file c m mt at') → ispython name = false →
        visitName cfg orc p st name = st)
    ∧ (∀ (fs : Node) (arg : String),
        isdirAt fs (toPath arg) = false → islinkAt fs (toPath arg) = false →
        processArg cfg orc fs arg = fixAt cfg orc fs (toPath arg)) := by
  refine ⟨?_, ?_, ?_, ?_⟩
  · intro fuel p es
    simp only [recursedownGo, throughLinks]
    rw [foldl_visitName cfg orc p (sortStrings (es.map Prod.fst)) false es [] []]
    rw [foldl_subdirs cfg orc fuel p]
    simp
  · intro p st name t hlk
    obtain ⟨b, es, evs, sd⟩ := st
    simp only at hlk
    simp [visitName, hlk]
  · intro p st name c m mt at' hlk hpy
    obtain ⟨b, es, evs, sd⟩ := st
    simp only at hlk
    simp [visitName, hlk, hpy]
  · intro fs arg h1 h2
    simp [processArg, h1, h2]

/-- Witness for C8: a symbolic link entry is skipped without any effect,
and a plain non-matching file argument still goes to `fix`. -/
theorem traversal_order_witness :
    visitName ⟨some (strToBytes "/p"), false, true, false, []⟩ okOracle ["d"]
        (false, [("l", .link (.file [] 0 0 0))], [], []) "l"
      = (false, [("l", .link (.file [] 0 0 0))], [], [])
    ∧ processArg ⟨some (strToBytes "/p"), false, true, false, []⟩ okOracle
        (.dir [("g", .file (strToBytes "#!x\n") 420 1 1)]) "g"
      = fixAt ⟨some (strToBytes "/p"), false, true, false, []⟩ okOracle
        (.dir [("g", .file (strToBytes "#!x\n") 420 1 1)]) (toPath "g") :=
  ⟨(traversal_order ⟨some (strToBytes "/p"), false, true, false, []⟩ okOracle).2.1
      ["d"] (false, [("l", .link (.file [] 0 0 0))], [], []) "l" (.file [] 0 0 0) rfl,
   (traversal_order ⟨some (strToBytes "/p"), false, true, false, []⟩ okOracle).2.2.2
      (.dir [("g", .file (strToBytes "#!x\n") 420 1 1)]) "g" rfl rfl⟩

end Pathfix
